import Mathlib

/-!
Verification development for the CNPJ dashboard's data-normalization and
aggregation pipeline (`src/services/dataService.ts` and the filter logic of
the main application component).

The embedding models JavaScript values flowing through the pipeline:

* JS numbers are modelled as `JSNum`: either `nan` or an exact rational.
  The claims under study concern zero/NaN distinctions, orderings and sums,
  none of which depend on IEEE-754 rounding.
* JS objects (the CSV rows) are modelled as association lists in key
  insertion order (`Row`); property write `obj[k] = v` is `objSet`,
  property read is `objGet`.
* All string operations are implemented structurally on `String.data`
  (lists of characters), mirroring the JavaScript string primitives used
  by the source (`toUpperCase`, `trim`, `split`, `includes`, `replace` of
  fixed character classes, `padStart`).
* `Array.prototype.sort` (specified as a stable sort in ECMAScript) is
  modelled as `List.insertionSort`, which is stable and sorted for the
  comparator relations used by the source.
-/

namespace CNPJ

/-- A JavaScript number: NaN, or an exact value (rational model of a double). -/
inductive JSNum where
  | nan : JSNum
  | num : ℚ → JSNum
deriving DecidableEq

/-- A JavaScript cell value as produced by the CSV parser (`dynamicTyping`)
and by the normalizer: string, number, boolean, null, or array of strings. -/
inductive Val where
  | vStr : String → Val
  | vNum : JSNum → Val
  | vBool : Bool → Val
  | vNull : Val
  | vList : List String → Val
deriving DecidableEq

/-- A row object: association list from column name to value, in JS property
insertion order. -/
abbrev Row := List (String × Val)

/-- JS property read `row[k]`: first binding of `k`. -/
def objGet : Row → String → Option Val
  | [], _ => none
  | (k, v) :: t, key => if k = key then some v else objGet t key

/-- JS property write `row[k] = v`: update in place if the key exists
(keeping its position), otherwise append at the end. -/
def objSet : Row → String → Val → Row
  | [], key, v => [(key, v)]
  | (k, w) :: t, key, v => if k = key then (key, v) :: t else (k, w) :: objSet t key v

/-- JS truthiness of a cell value. -/
def truthy : Val → Bool
  | .vStr s => s != ""
  | .vNum .nan => false
  | .vNum (.num q) => q != 0
  | .vBool b => b
  | .vNull => false
  | .vList _ => true

/-- Whether a column name starts with the reserved `_` prefix
(JS `key.startsWith('_')`). -/
def startsUnderscore (s : String) : Bool :=
  match s.data with
  | '_' :: _ => true
  | _ => false

/-- JS `String.prototype.toUpperCase` (ASCII range, as exercised by the data). -/
def upperStr (s : String) : String := String.mk (s.data.map Char.toUpper)

/-- JS `String.prototype.toLowerCase` (ASCII range). -/
def lowerStr (s : String) : String := String.mk (s.data.map Char.toLower)

/-- JS `String.prototype.trim`. -/
def trimStr (s : String) : String :=
  String.mk (((s.data.dropWhile Char.isWhitespace).reverse.dropWhile Char.isWhitespace).reverse)

/-- JS `String.prototype.includes(pat)`. -/
def strContains (s pat : String) : Bool :=
  s.data.tails.any (fun t => pat.data.isPrefixOf t)

/-- JS `String.prototype.startsWith(pat)`. -/
def startsWithStr (s pat : String) : Bool := pat.data.isPrefixOf s.data

/-- Split a character list on a separator character (JS `split` with a
single-character separator). -/
def splitChar (sep : Char) : List Char → List (List Char)
  | [] => [[]]
  | c :: t =>
    if c = sep then [] :: splitChar sep t
    else
      match splitChar sep t with
      | h :: r => (c :: h) :: r
      | [] => [[c]]

/-- JS `s.split(sep)` for a single-character separator. -/
def splitOnChar (sep : Char) (s : String) : List String :=
  (splitChar sep s.data).map String.mk

/-- JS `Array.prototype.join(sep)` for string arrays. -/
def joinSep (sep : String) : List String → String
  | [] => ""
  | [x] => x
  | x :: xs => x ++ sep ++ joinSep sep xs

/-- Keep only decimal digits of a string (JS `s.replace(/\D/g, '')`). -/
def digitsOf (s : String) : String := String.mk (s.data.filter Char.isDigit)

/-- Numeric value of a decimal digit character. -/
def digitVal (c : Char) : ℕ := c.toNat - 48

/-- Value of a most-significant-first list of decimal digit characters. -/
def digitsVal (l : List Char) : ℕ := l.foldl (fun a c => a * 10 + digitVal c) 0

/-- String rendering of a JS number. Integral values print like JS
(`String(2020) = "2020"`); the rendering chosen for non-integral values is
immaterial to this development (the pipeline only stringifies integers). -/
def jsNumToString (q : ℚ) : String :=
  if q.den = 1 then toString q.num else toString q.num ++ "/" ++ toString q.den

/-- JS `String(v)` coercion of a cell value. -/
def jsString : Val → String
  | .vStr s => s
  | .vNum .nan => "NaN"
  | .vNum (.num q) => jsNumToString q
  | .vBool true => "true"
  | .vBool false => "false"
  | .vNull => "null"
  | .vList l => joinSep "," l

/-- JS `parseInt` on the strings this pipeline produces (canonical integer
strings): optional leading minus sign, then the longest digit prefix.
JS returns NaN when no digit is found; that case is modelled as 0 and is
never hit by the pipeline (all parsed names are integer renderings). -/
def parseIntChars : List Char → ℤ
  | [] => 0
  | c :: rest =>
    if c = '-' then -(digitsVal (rest.takeWhile Char.isDigit) : ℤ)
    else (digitsVal ((c :: rest).takeWhile Char.isDigit) : ℤ)

def parseIntJS (s : String) : ℤ := parseIntChars s.data

/-- Magnitude part of JS `parseFloat`: longest prefix of the form
`digits [. digits]`; `none` when no digit occurs in it (JS NaN). The inputs
fed to it by the normalizer contain only digits, `.` and `-`, so the
exponent notation accepted by JS cannot arise. -/
def parseFloatMag (l : List Char) : Option ℚ :=
  match l.dropWhile Char.isDigit with
  | '.' :: r2 =>
    if (l.takeWhile Char.isDigit).isEmpty && (r2.takeWhile Char.isDigit).isEmpty then none
    else some ((digitsVal (l.takeWhile Char.isDigit) : ℚ) +
      (digitsVal (r2.takeWhile Char.isDigit) : ℚ) / (10 : ℚ) ^ (r2.takeWhile Char.isDigit).length)
  | _ => if (l.takeWhile Char.isDigit).isEmpty then none else some (digitsVal (l.takeWhile Char.isDigit) : ℚ)

/-- JS `parseFloat` (on the separator-free strings produced by
`cleanCurrency`): optional minus sign then a decimal magnitude; NaN when the
prefix holds no digit. -/
def parseFloatJS (s : String) : JSNum :=
  match s.data with
  | '-' :: r =>
    match parseFloatMag r with
    | some q => .num (-q)
    | none => .nan
  | l =>
    match parseFloatMag l with
    | some q => .num q
    | none => .nan

/-- `val.replace(/[^\d,.-]/g, '').replace(/\./g, '').replace(',', '.')` from
the capital rule: keep digits and `,.-`, drop every period, then replace the
first comma by a period. -/
def replaceFirstComma : List Char → List Char
  | [] => []
  | c :: t => if c = ',' then '.' :: t else c :: replaceFirstComma t

/-- Currency-string cleanup performed by the normalizer before `parseFloat`. -/
def cleanCurrency (s : String) : String :=
  String.mk (replaceFirstComma ((s.data.filter
    (fun c => c.isDigit || c = ',' || c = '.' || c = '-')).filter (fun c => c != '.')))

/-- `formatCNPJ` from `dataService.ts`: falsy (empty) values are returned
unchanged; otherwise non-digits are stripped, the digit string is
left-padded with zeros to length 14, and the regex
`^(\d{2})(\d{3})(\d{3})(\d{4})(\d{2})` is replaced by the masked form —
which formats the first 14 digits and appends any remaining characters. -/
def formatCNPJ (value : String) : String :=
  if value = "" then value
  else
    let v := List.replicate (14 - (value.data.filter Char.isDigit).length) '0' ++
      value.data.filter Char.isDigit
    if 14 ≤ v.length then
      String.mk (v.take 2 ++ '.' :: (v.drop 2).take 3 ++ '.' :: (v.drop 5).take 3 ++
        '/' :: (v.drop 8).take 4 ++ '-' :: v.drop 12)
    else String.mk v

/-- Modelled from the spec: the year obtained from JS `new Date(string)`,
whose parser is an external runtime facility. Per the spec, a date field is
"attempted as a calendar date; on failure pass through with no year
extracted". The sheet dates are ISO `YYYY-MM-DD` strings; the model accepts
exactly that prefix shape and yields its year. -/
def jsDateYear (s : String) : Option ℤ :=
  match s.data with
  | y1 :: y2 :: y3 :: y4 :: '-' :: m1 :: m2 :: '-' :: d1 :: d2 :: _ =>
    if y1.isDigit && y2.isDigit && y3.isDigit && y4.isDigit &&
        m1.isDigit && m2.isDigit && d1.isDigit && d2.isDigit then
      some (digitsVal [y1, y2, y3, y4] : ℤ)
    else none
  | _ => none

/-- Modelled from the spec: `formatDate` — locale (`pt-BR`) reformat of a
parseable date, passthrough otherwise. For the ISO inputs modelled by
`jsDateYear` the display form is `DD/MM/YYYY`. -/
def formatDate (s : String) : String :=
  match jsDateYear s, s.data with
  | some _, y1 :: y2 :: y3 :: y4 :: _ :: m1 :: m2 :: _ :: d1 :: d2 :: _ =>
    String.mk [d1, d2, '/', m1, m2, '/', y1, y2, y3, y4]
  | _, _ => s

/-- Two-digit rendering of a value below 100. -/
def padTwo (n : ℕ) : String := if n < 10 then "0" ++ Nat.repr n else Nat.repr n

/-- Group a digit list (least-significant first after reversal) in threes. -/
def chunk3 : List Char → List (List Char)
  | a :: b :: c :: d :: rest => [a, b, c] :: chunk3 (d :: rest)
  | l => [l]

/-- Insert `.` thousands separators into a digit string. -/
def groupThousands (s : String) : String :=
  joinSep "." (((chunk3 s.data.reverse).map (fun g => String.mk g.reverse)).reverse)

/-- Modelled from the spec: `formatCurrency` — the `Intl.NumberFormat`
(`pt-BR`, BRL) locale rendering, an external runtime facility. Per the spec
it renders two decimal places, the currency symbol and thousands
separators; `format(NaN)` renders `"R$ NaN"`. The exact rendering is not
relied upon by any claim. -/
def formatCurrency : JSNum → String
  | .nan => "R$ NaN"
  | .num q =>
    let cents : ℤ := round (q * 100)
    "R$ " ++ (if cents < 0 then "-" else "") ++
      groupThousands (Nat.repr (cents.natAbs / 100)) ++ "," ++ padTwo (cents.natAbs % 100)

/-! ## Row normalization (`fetchSheetData`'s per-key cleaning rules) -/

/-- Rule 1 guard: `upperKey.includes('CNPJ') && val`. -/
def cnpjCond (uk : String) (v : Val) : Bool := strContains uk "CNPJ" && truthy v

/-- Rule 2 guard: `(upperKey.includes('DATA') || upperKey.includes('INICIO')) && val`. -/
def dateCond (uk : String) (v : Val) : Bool :=
  (strContains uk "DATA" || strContains uk "INICIO") && truthy v

/-- Rule 3 guard: `upperKey.includes('CAPITAL') && val !== null && val !== undefined`
(`Val` has no undefined; absent properties never reach the per-key loop). -/
def capCond (uk : String) (v : Val) : Bool := strContains uk "CAPITAL" && !(v == Val.vNull)

/-- Rule 4 guard: `upperKey.includes('SOCIOS') || upperKey.includes('QSA')`. -/
def socCond (uk : String) : Bool := strContains uk "SOCIOS" || strContains uk "QSA"

/-- Activity guard: `upperKey.includes('CNAE') || upperKey.includes('ATIVIDADE')`. -/
def actCond (uk : String) : Bool := strContains uk "CNAE" || strContains uk "ATIVIDADE"

/-- Rule 5a guard (primary activity). -/
def priCond (uk : String) : Bool :=
  actCond uk && (strContains uk "PRIMARIO" || strContains uk "PRIMÁRIO" || strContains uk "PRINCIPAL")

/-- Rule 5b guard (secondary activity). -/
def secCond (uk : String) : Bool :=
  actCond uk && (strContains uk "SECUNDARI" || strContains uk "SECUNDÁRI")

/-- Rule 6 guard: `upperKey === 'UF' || upperKey.includes('ESTADO')`. -/
def ufCond (uk : String) : Bool := (uk == "UF") || strContains uk "ESTADO"

/-- The number the capital rule ends with, when `typeof val === 'number'`
after the optional `parseFloat`: a parsed string, or an already-numeric
value; `none` for the other runtime types. -/
def capParsed : Val → Option JSNum
  | .vStr s => some (parseFloatJS (cleanCurrency s))
  | .vNum n => some n
  | _ => none

/-- Partner-list split: `val.split(';').map(s => s.trim()).filter(s => s)`
for string values, `[]` otherwise. -/
def socListOf : Val → List String
  | .vStr s => ((splitOnChar ';' s).map trimStr).filter (fun x => x != "")
  | _ => []

/-- Secondary-activity split:
`val.split(';').map(s => s.trim()).filter(s => s.length > 0)` for string
values, `[]` otherwise. -/
def secListOf : Val → List String
  | .vStr s => ((splitOnChar ';' s).map trimStr).filter (fun x => decide (0 < x.length))
  | _ => []

/-- The cell value after rule 1 (CNPJ formatting). -/
def val1 (uk : String) (v : Val) : Val :=
  if cnpjCond uk v then .vStr (formatCNPJ (jsString v)) else v

/-- The cell value after rule 2 (date display reformat). -/
def val2 (uk : String) (v : Val) : Val :=
  if dateCond uk (val1 uk v) then .vStr (formatDate (jsString (val1 uk v))) else val1 uk v

/-- The cell value after rule 3 (currency parse and display reformat). -/
def val3 (uk : String) (v : Val) : Val :=
  if capCond uk (val2 uk v) then
    match capParsed (val2 uk v) with
    | some n => .vStr (formatCurrency n)
    | none => val2 uk v
  else val2 uk v

/-- The cell value after rule 4 (partner list rejoin); rules 5 and 6 do not
mutate the value, so this is also the value stored back under the original
key. -/
def val4 (uk : String) (v : Val) : Val :=
  if socCond uk then
    match val3 uk v with
    | .vStr _ => .vStr (joinSep "; " (socListOf (val3 uk v)))
    | w => w
  else val3 uk v

/-- Conditional property write. -/
def condWrite (c : Bool) (key : String) (v : Val) (acc : Row) : Row :=
  if c then objSet acc key v else acc

/-- Processing of one key of a raw row by the normalizer: the sequential
rules 1–6 of `fetchSheetData` (each a conditional derived-field write on the
new row combined with an in-place mutation of `val`), followed by the
passthrough write `newRow[key] = val`. Writes are composed innermost-first
in source order: `_year`, `_raw_capital`, `_socios_list`, `_socios_count`,
`_cnae_principal`, `_cnae_sec_list`, `_cnae_sec_count`, `_uf`, passthrough. -/
def stepKey (acc : Row) (k : String) (v : Val) : Row :=
  objSet
    (condWrite (ufCond (upperStr k)) "_uf"
      (.vStr (trimStr (upperStr (jsString (val4 (upperStr k) v)))))
      (condWrite (secCond (upperStr k)) "_cnae_sec_count"
        (.vNum (.num ((secListOf (val4 (upperStr k) v)).length : ℚ)))
        (condWrite (secCond (upperStr k)) "_cnae_sec_list"
          (.vList (secListOf (val4 (upperStr k) v)))
          (condWrite (priCond (upperStr k)) "_cnae_principal" (val4 (upperStr k) v)
            (condWrite (socCond (upperStr k)) "_socios_count"
              (.vNum (.num ((socListOf (val3 (upperStr k) v)).length : ℚ)))
              (condWrite (socCond (upperStr k)) "_socios_list"
                (.vList (socListOf (val3 (upperStr k) v)))
                (condWrite (capCond (upperStr k) (val2 (upperStr k) v)) "_raw_capital"
                  (.vNum ((capParsed (val2 (upperStr k) v)).getD (.num 0)))
                  (condWrite
                    (dateCond (upperStr k) (val1 (upperStr k) v) &&
                      (jsDateYear (jsString v)).isSome)
                    "_year"
                    (.vNum (.num (((jsDateYear (jsString v)).getD 0 : ℤ) : ℚ)))
                    acc))))))))
    k (val4 (upperStr k) v)

/-- The row normalizer: fold the per-key processing over the raw row's keys
in order, starting from an empty new row (`newRow = {}`). -/
def cleanRow (row : Row) : Row :=
  row.foldl (fun acc kv => stepKey acc kv.1 kv.2) []

/-! ## Aggregators -/

/-- A chart data point carrying its source record for drill-down. -/
structure ChartPoint where
  name : String
  value : ℚ
  fullData : Row
deriving DecidableEq

/-- A name/value chart entry (trend and geo shapes). -/
structure NamedValue where
  name : String
  value : ℚ
deriving DecidableEq

/-- Descending comparison by a rational key: the stable-sort order of the JS
comparator `(b,a) => key(b) - key(a)` (`a` may precede `b` iff
`key b ≤ key a`). -/
def byKeyDesc {α : Type*} (f : α → ℚ) (a b : α) : Prop := f b ≤ f a

instance instDecByKeyDesc {α : Type*} (f : α → ℚ) : DecidableRel (byKeyDesc f) :=
  fun a b => inferInstanceAs (Decidable (f b ≤ f a))

instance instTotalByKeyDesc {α : Type*} (f : α → ℚ) : IsTotal α (byKeyDesc f) :=
  ⟨fun a b => le_total (f b) (f a)⟩

instance instTransByKeyDesc {α : Type*} (f : α → ℚ) : IsTrans α (byKeyDesc f) :=
  ⟨fun _ _ _ h1 h2 => le_trans h2 h1⟩

/-- Ascending comparison by an integer key: the stable-sort order of the JS
comparator `(a,b) => key(a) - key(b)`. -/
def byKeyAsc {α : Type*} (f : α → ℤ) (a b : α) : Prop := f a ≤ f b

instance instDecByKeyAsc {α : Type*} (f : α → ℤ) : DecidableRel (byKeyAsc f) :=
  fun a b => inferInstanceAs (Decidable (f a ≤ f b))

instance instTotalByKeyAsc {α : Type*} (f : α → ℤ) : IsTotal α (byKeyAsc f) :=
  ⟨fun a b => le_total (f a) (f b)⟩

instance instTransByKeyAsc {α : Type*} (f : α → ℤ) : IsTrans α (byKeyAsc f) :=
  ⟨fun _ _ _ h1 h2 => le_trans h1 h2⟩

/-- `row['_raw_capital'] || 0` as a rational: the stored number, with NaN,
zero, missing and (unreachable) non-numeric values all collapsing to 0 —
exactly the value used by `getTopCapital`'s comparator and output. -/
def rawCapQ (row : Row) : ℚ :=
  match objGet row "_raw_capital" with
  | some (.vNum (.num q)) => q
  | _ => 0

/-- The display-name predicate of the aggregators:
`!k.startsWith('_') && (k.toUpperCase().includes('RAZAO') || ...includes('NOME'))`. -/
def nameKeyPred (kv : String × Val) : Bool :=
  !startsUnderscore kv.1 &&
    (strContains (upperStr kv.1) "RAZAO" || strContains (upperStr kv.1) "NOME")

/-- The truncated display name built by the aggregators:
`String(row[nameKey] || 'Sem Nome').substring(0, 20) + '...'` where
`nameKey` is the first matching name key, else the row's first key. -/
def topName (row : Row) : String :=
  let k? : Option String :=
    match row.find? nameKeyPred with
    | some kv => some kv.1
    | none => row.head?.map Prod.fst
  let v : Val :=
    match k? with
    | some k => (objGet row k).getD Val.vNull
    | none => Val.vNull
  String.mk ((if truthy v then jsString v else "Sem Nome").data.take 20) ++ "..."

/-- `getTopCapital`: stable-sort a copy of the dataset descending by
`_raw_capital || 0`, take the first 10, and map each record to a chart point
that keeps the record itself as `fullData`. -/
def getTopCapital (data : List Row) : List ChartPoint :=
  ((List.insertionSort (byKeyDesc rawCapQ) data).take 10).map (fun row =>
    { name := topName row, value := rawCapQ row, fullData := row })

/-- Modelled from the spec: `CNAE_LIST`, the static reference code set from
the `constants` module, which is not among the provided sources (only its
importers are). Entries pair an activity code with its description; the
aggregator uses only the digit-stripped codes, so a representative subset
suffices. -/
def CNAE_LIST : List (String × String) :=
  [("6611-8/01", "Bancos centrais"),
   ("6612-6/01", "Corretoras de titulos e valores mobiliarios"),
   ("6462-0/00", "Holdings de instituicoes nao-financeiras"),
   ("6499-9/99", "Outras atividades de servicos financeiros")]

/-- The digit-stripped financial code set (`financialCNAESet`). -/
def financialCNAESet : List String := CNAE_LIST.map (fun c => digitsOf c.1)

/-- `row['_cnae_sec_list'] || []` as a string list (the stored list; other
shapes, never produced by the normalizer, collapse to `[]`). -/
def secListOfRow (row : Row) : List String :=
  match objGet row "_cnae_sec_list" with
  | some (.vList l) => l
  | _ => []

/-- The count of secondary activity codes that belong (digit-stripped) to
the financial code set. -/
def finCount (row : Row) : ℕ :=
  ((secListOfRow row).filter (fun c => financialCNAESet.contains (digitsOf c))).length

/-- The spread `{...row, _financial_count: n}` built by
`getTopCNAESecundary`: a copy of the record with the count written under
`_financial_count`. -/
def augmentFin (row : Row) : Row :=
  objSet row "_financial_count" (.vNum (.num (finCount row : ℚ)))

/-- `row._financial_count` as a rational (always present on augmented rows). -/
def finOf (row : Row) : ℚ :=
  match objGet row "_financial_count" with
  | some (.vNum (.num q)) => q
  | _ => 0

/-- `getTopCNAESecundary`: augment every record with its financial-code
count, stable-sort descending by that count, take the first 10, and map to
chart points whose `fullData` is the augmented copy. -/
def getTopCNAESecundary (data : List Row) : List ChartPoint :=
  ((List.insertionSort (byKeyDesc finOf) (data.map augmentFin)).take 10).map (fun row =>
    { name := topName row, value := finOf row, fullData := row })

/-! ## Capital trend (`getCapitalTrend`) -/

/-- Truthiness of the stored `_raw_capital` (`row['_raw_capital']` as a
condition): false for 0, NaN and missing values. -/
def capitalTruthy (row : Row) : Bool :=
  match objGet row "_raw_capital" with
  | some v => truthy v
  | none => false

/-- The year/capital pair of a record that `getCapitalTrend` includes:
`row['_year'] && row['_raw_capital']` both truthy numbers and
`1900 < year ≤ currentYear`. Non-numeric values under these derived keys
(never produced by the normalizer) are not included. -/
def trendIncluded (cy : ℤ) (row : Row) : Option (ℚ × ℚ) :=
  match objGet row "_year", objGet row "_raw_capital" with
  | some (.vNum (.num y)), some (.vNum (.num c)) =>
    if y ≠ 0 ∧ c ≠ 0 ∧ (1900 : ℚ) < y ∧ y ≤ (cy : ℚ) then some (y, c) else none
  | _, _ => none

/-- `trendMap[year] = (trendMap[year] || 0) + capital`: update the first
binding of the key, else append a fresh one. -/
def bump : List (String × ℚ) → String → ℚ → List (String × ℚ)
  | [], key, c => [(key, c)]
  | (k, v) :: t, key, c =>
    if k = key then (k, v + c) :: t else (k, v) :: bump t key c

/-- One `data.forEach` step of `getCapitalTrend`: add an included record's
capital to its year's entry. -/
def trendStep (cy : ℤ) (m : List (String × ℚ)) (row : Row) : List (String × ℚ) :=
  match trendIncluded cy row with
  | some yc => bump m (jsNumToString yc.1) yc.2
  | none => m

/-- Property read on the trend map. -/
def qGet : List (String × ℚ) → String → Option ℚ
  | [], _ => none
  | (k, v) :: t, key => if k = key then some v else qGet t key

/-- The accumulated `trendMap` of `getCapitalTrend`, keyed by `String(year)`
in insertion order. (JS enumerates the integer-like keys of the object in
ascending order; since the entries are subsequently sorted by `parseInt`,
insertion order is an equivalent model.) -/
def trendMapOf (cy : ℤ) (data : List Row) : List (String × ℚ) :=
  data.foldl (trendStep cy) []

/-- `getCapitalTrend`, parameterized by the current year
(`new Date().getFullYear()` at call time): accumulate per-year sums of
`_raw_capital` over included records, then sort entries ascending by
`parseInt` of the year name. -/
def getCapitalTrend (cy : ℤ) (data : List Row) : List NamedValue :=
  List.insertionSort (byKeyAsc (fun p => parseIntJS p.name))
    ((trendMapOf cy data).map (fun e => { name := e.1, value := e.2 }))

/-- The contribution of one record to the trend entry named `s`: its capital
if the record is included and its year stringifies to `s`, else 0. -/
def yearContrib (cy : ℤ) (s : String) (row : Row) : ℚ :=
  match trendIncluded cy row with
  | some yc => if jsNumToString yc.1 = s then yc.2 else 0
  | none => 0

/-- Whether the `_year` stored on a record is an integral number (the only
shape the normalizer produces). -/
def yearIntegral (row : Row) : Bool :=
  match objGet row "_year" with
  | some (.vNum (.num q)) => q.den == 1
  | some _ => false
  | none => true

/-! ## Dataset loader (`fetchSheetData`'s source loop) -/

/-- The outcome of fetching one source: a network failure (a rejected
`fetch`), or a response with its HTTP ok-flag and body text. -/
inductive FetchResult where
  | netError : FetchResult
  | resp (ok : Bool) (body : String) : FetchResult
deriving DecidableEq

/-- The auth-wall detection applied to a response body:
`csvText.trim().toLowerCase().startsWith('<!doctype html') || csvText.includes('<html')`. -/
def isHTMLBody (s : String) : Bool :=
  startsWithStr (lowerStr (trimStr s)) "<!doctype html" || strContains s "<html"

/-- Modelled from the spec: one CSV cell under PapaParse `dynamicTyping` —
numeric-looking fields become numbers, `true`/`false` become booleans,
everything else stays a string. -/
def parseCell (s : String) : Val :=
  if s = "true" then .vBool true
  else if s = "false" then .vBool false
  else if s ≠ "" ∧ s.data.all Char.isDigit then .vNum (.num (digitsVal s.data : ℚ))
  else .vStr s

/-- Modelled from the spec: PapaParse with `header: true` and greedy empty
line skipping, an external library. The first non-blank line provides the
field names; each further non-blank line yields one raw record pairing
header names with typed cells. -/
def papaParse (csv : String) : List Row :=
  match (splitOnChar '\n' csv).filter (fun l => trimStr l != "") with
  | [] => []
  | header :: lines =>
    lines.map (fun line => (splitOnChar ',' header).zip ((splitOnChar ',' line).map parseCell))

/-- The per-source contribution to the loaded dataset: empty for a network
error, a non-2xx response, or an HTML body; otherwise the parsed rows, each
normalized by `cleanRow`. -/
def sourceRows : FetchResult → List Row
  | .netError => []
  | .resp ok body =>
    if !ok then []
    else if isHTMLBody body then []
    else (papaParse body).map cleanRow

/-- Whether a source is skipped (with a logged warning) instead of
contributing rows. -/
def skippedSource : FetchResult → Bool
  | .netError => true
  | .resp ok body => !ok || isHTMLBody body

/-- The terminal failure message of the loader. -/
def loadErrorMsg : String :=
  "Nenhum dado encontrado. Verifique se a planilha está pública e acessível."

/-- The source loop of `fetchSheetData`: `continue` on non-2xx and HTML
bodies, `try/catch` swallowing per-source errors, `allData.push(...result)`
otherwise. -/
def loadLoop : List FetchResult → List Row → List Row
  | [], acc => acc
  | .netError :: rest, acc => loadLoop rest acc
  | .resp ok body :: rest, acc =>
    if !ok then loadLoop rest acc
    else if isHTMLBody body then loadLoop rest acc
    else loadLoop rest (acc ++ (papaParse body).map cleanRow)

/-- `fetchSheetData` over a list of per-source fetch outcomes: run the
source loop, then throw the terminal error iff no rows accumulated. -/
def fetchSheetData (sources : List FetchResult) : Except String (List Row) :=
  if (loadLoop sources []).length = 0 then .error loadErrorMsg
  else .ok (loadLoop sources [])

/-! ## Filter engine (`filteredData` in the application component) -/

/-- The unified activity-code predicate: some selected code's digit string
occurs as a substring of the digit-stripped primary code or of some
digit-stripped secondary code. -/
def cnaeRowMatch (cnaes : List String) (row : Row) : Bool :=
  let p : String :=
    match objGet row "_cnae_principal" with
    | some v => if truthy v then jsString v else ""
    | none => ""
  let sList : List String :=
    match objGet row "_cnae_sec_list" with
    | some (.vList l) => l
    | _ => []
  cnaes.any (fun code =>
    strContains (digitsOf p) (digitsOf code) ||
      sList.any (fun sec => strContains (digitsOf sec) (digitsOf code)))

/-- The region predicate: `_uf` (or, when that is falsy, the value of a key
named `UF`/`ESTADO`) is one of the selected strings. -/
def ufRowMatch (ufs : List String) (row : Row) : Bool :=
  let uf : Option Val :=
    match objGet row "_uf" with
    | some v =>
      if truthy v then some v
      else (row.find? (fun kv => upperStr kv.1 == "UF" || upperStr kv.1 == "ESTADO")).map Prod.snd
    | none => (row.find? (fun kv => upperStr kv.1 == "UF" || upperStr kv.1 == "ESTADO")).map Prod.snd
  match uf with
  | some (.vStr s) => ufs.contains s
  | _ => false

/-- The legal-nature predicate: a key containing `NATUREZA`/`JURIDICA`
exists and some selected option's leading code segment (before `-`) occurs
in the uppercased field value. -/
def natRowMatch (naturezas : List String) (row : Row) : Bool :=
  match row.find? (fun kv =>
      strContains (upperStr kv.1) "NATUREZA" || strContains (upperStr kv.1) "JURIDICA") with
  | none => false
  | some kv =>
    naturezas.any (fun n =>
      strContains (upperStr (jsString kv.2)) (trimStr ((splitOnChar '-' n).headD "")))

/-- The filter engine: apply each non-empty selection set as a conjunctive
filter, in source order (activity codes, then regions, then legal natures). -/
def filteredData (data : List Row) (cnaes ufs naturezas : List String) : List Row :=
  let res := data
  let res := if 0 < cnaes.length then res.filter (cnaeRowMatch cnaes) else res
  let res := if 0 < ufs.length then res.filter (ufRowMatch ufs) else res
  if 0 < naturezas.length then res.filter (natRowMatch naturezas) else res

/-- The property claimed of `_uf`: exactly two uppercase letters. -/
def isTwoUpper (s : String) : Bool :=
  s.data.length == 2 && s.data.all Char.isUpper

/-- The concrete record used to witness claim C2. -/
def c2row : Row :=
  [("CNAE PRINCIPAL", Val.vStr "111"), ("ATIVIDADE PRINCIPAL", Val.vStr "222"),
   ("ESTADO", Val.vStr "sp"), ("SOCIOS", Val.vStr "Ana; Beto")]

/-- The dataset used to witness claim C5. -/
def c5data : List Row := [[("NOME", Val.vStr "Empresa X")]]

/-- The source outcomes used to witness claim C8: an auth-wall HTML body, a
non-2xx response, and one good CSV source with a single row. -/
def c8sources : List FetchResult :=
  [.resp true "<html>", .resp false "X", .resp true "NOME\nAcme"]

/-- Concrete normalized records used to witness claim C10: a 1999 record
with zero capital and a 2020 record with positive capital. -/
def trendDemo : List Row :=
  [[("_year", Val.vNum (.num ((1999 : ℤ) : ℚ))), ("_raw_capital", Val.vNum (.num 0))],
   [("_year", Val.vNum (.num ((2020 : ℤ) : ℚ))), ("_raw_capital", Val.vNum (.num 5))]]

/-! ## Property read/write lemmas -/

theorem objGet_objSet_self (r : Row) (k : String) (v : Val) :
    objGet (objSet r k v) k = some v := by
  induction r with
  | nil => simp [objSet, objGet]
  | cons kv t ih =>
    by_cases h : kv.1 = k
    · simp [objSet, h, objGet]
    · simp [objSet, h, objGet, ih]

theorem objGet_objSet_ne {key k : String} (h : key ≠ k) (r : Row) (v : Val) :
    objGet (objSet r k v) key = objGet r key := by
  have hke : ¬ (k = key) := fun hh => h hh.symm
  induction r with
  | nil => simp [objSet, objGet, hke]
  | cons kv t ih =>
    cases kv with
    | mk a b =>
      by_cases hk : a = k
      · subst hk
        simp [objSet, objGet, hke]
      · simp only [objSet, if_neg hk, objGet]
        by_cases h2 : a = key <;> simp [h2, ih]

theorem objGet_condWrite_ne {key k : String} (h : key ≠ k) (c : Bool) (v : Val) (acc : Row) :
    objGet (condWrite c k v acc) key = objGet acc key := by
  unfold condWrite
  split
  · exact objGet_objSet_ne h acc v
  · rfl

theorem objGet_condWrite_self (c : Bool) (k : String) (v : Val) (acc : Row) :
    objGet (condWrite c k v acc) k = if c then some v else objGet acc k := by
  unfold condWrite
  split <;> simp [objGet_objSet_self]

theorem ne_of_underscoreFree {k target : String} (hk : startsUnderscore k = false)
    (ht : startsUnderscore target = true) : k ≠ target := by
  intro h
  subst h
  rw [hk] at ht
  exact Bool.false_ne_true ht

/-- The passthrough write `newRow[key] = val` of a non-reserved column never
touches a derived (underscore-prefixed) field. -/
theorem objGet_objSet_passthrough {k : String} (hk : startsUnderscore k = false)
    {K : String} (hK : startsUnderscore K = true) (r : Row) (v : Val) :
    objGet (objSet r k v) K = objGet r K :=
  objGet_objSet_ne (ne_of_underscoreFree hk hK).symm r v

/-! ## Per-derived-key behaviour of one normalizer step -/

theorem objGet_stepKey_principal (acc : Row) (k : String) (v : Val)
    (hk : startsUnderscore k = false) :
    objGet (stepKey acc k v) "_cnae_principal" =
      if priCond (upperStr k) then some (val4 (upperStr k) v)
      else objGet acc "_cnae_principal" := by
  simp +decide [stepKey, objGet_condWrite_ne, objGet_condWrite_self,
    objGet_objSet_passthrough hk]

theorem objGet_stepKey_uf (acc : Row) (k : String) (v : Val)
    (hk : startsUnderscore k = false) :
    objGet (stepKey acc k v) "_uf" =
      if ufCond (upperStr k) then
        some (.vStr (trimStr (upperStr (jsString (val4 (upperStr k) v)))))
      else objGet acc "_uf" := by
  simp +decide [stepKey, objGet_condWrite_ne, objGet_condWrite_self,
    objGet_objSet_passthrough hk]

theorem objGet_stepKey_year (acc : Row) (k : String) (v : Val)
    (hk : startsUnderscore k = false) :
    objGet (stepKey acc k v) "_year" =
      if dateCond (upperStr k) (val1 (upperStr k) v) && (jsDateYear (jsString v)).isSome then
        some (.vNum (.num (((jsDateYear (jsString v)).getD 0 : ℤ) : ℚ)))
      else objGet acc "_year" := by
  simp +decide [stepKey, objGet_condWrite_ne, objGet_condWrite_self,
    objGet_objSet_passthrough hk]

theorem objGet_stepKey_sociosList (acc : Row) (k : String) (v : Val)
    (hk : startsUnderscore k = false) :
    objGet (stepKey acc k v) "_socios_list" =
      if socCond (upperStr k) then some (.vList (socListOf (val3 (upperStr k) v)))
      else objGet acc "_socios_list" := by
  simp +decide [stepKey, objGet_condWrite_ne, objGet_condWrite_self,
    objGet_objSet_passthrough hk]

theorem objGet_stepKey_sociosCount (acc : Row) (k : String) (v : Val)
    (hk : startsUnderscore k = false) :
    objGet (stepKey acc k v) "_socios_count" =
      if socCond (upperStr k) then
        some (.vNum (.num ((socListOf (val3 (upperStr k) v)).length : ℚ)))
      else objGet acc "_socios_count" := by
  simp +decide [stepKey, objGet_condWrite_ne, objGet_condWrite_self,
    objGet_objSet_passthrough hk]

theorem objGet_stepKey_secList (acc : Row) (k : String) (v : Val)
    (hk : startsUnderscore k = false) :
    objGet (stepKey acc k v) "_cnae_sec_list" =
      if secCond (upperStr k) then some (.vList (secListOf (val4 (upperStr k) v)))
      else objGet acc "_cnae_sec_list" := by
  simp +decide [stepKey, objGet_condWrite_ne, objGet_condWrite_self,
    objGet_objSet_passthrough hk]

theorem objGet_stepKey_secCount (acc : Row) (k : String) (v : Val)
    (hk : startsUnderscore k = false) :
    objGet (stepKey acc k v) "_cnae_sec_count" =
      if secCond (upperStr k) then
        some (.vNum (.num ((secListOf (val4 (upperStr k) v)).length : ℚ)))
      else objGet acc "_cnae_sec_count" := by
  simp +decide [stepKey, objGet_condWrite_ne, objGet_condWrite_self,
    objGet_objSet_passthrough hk]

/-! ## The last matching key wins -/

theorem getLast?_cons_eq {α : Type*} (x : α) (l : List α) :
    (x :: l).getLast? = some (l.getLast?.getD x) := by
  induction l generalizing x with
  | nil => rfl
  | cons y t ih =>
    rw [List.getLast?_cons_cons, ih y]
    cases h : t.getLast? <;> simp [ih y, h]

/-- Each derived field that a normalizer step writes under a fixed guard and
value function ends up holding the value of the last matching key of the
row (the per-key loop overwrites it on every match). -/
theorem objGet_foldl_lastWrite (K : String) (p : String → Val → Bool)
    (f : String → Val → Val)
    (hstep : ∀ acc k v, startsUnderscore k = false →
      objGet (stepKey acc k v) K = if p k v then some (f k v) else objGet acc K)
    (row : Row) :
    ∀ acc : Row, (∀ kv ∈ row, startsUnderscore kv.1 = false) →
      objGet (row.foldl (fun a kv => stepKey a kv.1 kv.2) acc) K =
        ((row.filter (fun kv => p kv.1 kv.2)).getLast?.map
          (fun kv => some (f kv.1 kv.2))).getD (objGet acc K) := by
  induction row with
  | nil => intro acc _; simp
  | cons kv t ih =>
    intro acc h
    have hkv : startsUnderscore kv.1 = false := h kv (List.mem_cons_self _ _)
    have ht : ∀ x ∈ t, startsUnderscore x.1 = false :=
      fun x hx => h x (List.mem_cons_of_mem _ hx)
    rw [List.foldl_cons, ih _ ht, List.filter_cons]
    by_cases hp : p kv.1 kv.2
    · rw [if_pos hp, getLast?_cons_eq, hstep acc kv.1 kv.2 hkv, if_pos hp]
      cases hft : (t.filter (fun x => p x.1 x.2)).getLast? <;> simp [hft]
    · rw [if_neg hp, hstep acc kv.1 kv.2 hkv, if_neg hp]

theorem cleanRow_principal (row : Row) (h : ∀ kv ∈ row, startsUnderscore kv.1 = false) :
    objGet (cleanRow row) "_cnae_principal" =
      ((row.filter (fun kv => priCond (upperStr kv.1))).getLast?.map
        (fun kv => some (val4 (upperStr kv.1) kv.2))).getD none :=
  objGet_foldl_lastWrite _ (fun k _ => priCond (upperStr k))
    (fun k v => val4 (upperStr k) v)
    (fun acc k v hk => objGet_stepKey_principal acc k v hk) row [] h

theorem cleanRow_uf (row : Row) (h : ∀ kv ∈ row, startsUnderscore kv.1 = false) :
    objGet (cleanRow row) "_uf" =
      ((row.filter (fun kv => ufCond (upperStr kv.1))).getLast?.map
        (fun kv => some (Val.vStr (trimStr (upperStr (jsString (val4 (upperStr kv.1) kv.2))))))).getD
        none :=
  objGet_foldl_lastWrite _ (fun k _ => ufCond (upperStr k))
    (fun k v => .vStr (trimStr (upperStr (jsString (val4 (upperStr k) v)))))
    (fun acc k v hk => objGet_stepKey_uf acc k v hk) row [] h

theorem cleanRow_year (row : Row) (h : ∀ kv ∈ row, startsUnderscore kv.1 = false) :
    objGet (cleanRow row) "_year" =
      ((row.filter (fun kv =>
          dateCond (upperStr kv.1) (val1 (upperStr kv.1) kv.2) &&
            (jsDateYear (jsString kv.2)).isSome)).getLast?.map
        (fun kv => some (Val.vNum (.num (((jsDateYear (jsString kv.2)).getD 0 : ℤ) : ℚ))))).getD
        none :=
  objGet_foldl_lastWrite _
    (fun k v => dateCond (upperStr k) (val1 (upperStr k) v) && (jsDateYear (jsString v)).isSome)
    (fun _ v => .vNum (.num (((jsDateYear (jsString v)).getD 0 : ℤ) : ℚ)))
    (fun acc k v hk => objGet_stepKey_year acc k v hk) row [] h

theorem cleanRow_sociosList (row : Row) (h : ∀ kv ∈ row, startsUnderscore kv.1 = false) :
    objGet (cleanRow row) "_socios_list" =
      ((row.filter (fun kv => socCond (upperStr kv.1))).getLast?.map
        (fun kv => some (Val.vList (socListOf (val3 (upperStr kv.1) kv.2))))).getD none :=
  objGet_foldl_lastWrite _ (fun k _ => socCond (upperStr k))
    (fun k v => .vList (socListOf (val3 (upperStr k) v)))
    (fun acc k v hk => objGet_stepKey_sociosList acc k v hk) row [] h

theorem cleanRow_sociosCount (row : Row) (h : ∀ kv ∈ row, startsUnderscore kv.1 = false) :
    objGet (cleanRow row) "_socios_count" =
      ((row.filter (fun kv => socCond (upperStr kv.1))).getLast?.map
        (fun kv => some (Val.vNum (.num ((socListOf (val3 (upperStr kv.1) kv.2)).length : ℚ))))).getD
        none :=
  objGet_foldl_lastWrite _ (fun k _ => socCond (upperStr k))
    (fun k v => .vNum (.num ((socListOf (val3 (upperStr k) v)).length : ℚ)))
    (fun acc k v hk => objGet_stepKey_sociosCount acc k v hk) row [] h

theorem cleanRow_secList (row : Row) (h : ∀ kv ∈ row, startsUnderscore kv.1 = false) :
    objGet (cleanRow row) "_cnae_sec_list" =
      ((row.filter (fun kv => secCond (upperStr kv.1))).getLast?.map
        (fun kv => some (Val.vList (secListOf (val4 (upperStr kv.1) kv.2))))).getD none :=
  objGet_foldl_lastWrite _ (fun k _ => secCond (upperStr k))
    (fun k v => .vList (secListOf (val4 (upperStr k) v)))
    (fun acc k v hk => objGet_stepKey_secList acc k v hk) row [] h

theorem cleanRow_secCount (row : Row) (h : ∀ kv ∈ row, startsUnderscore kv.1 = false) :
    objGet (cleanRow row) "_cnae_sec_count" =
      ((row.filter (fun kv => secCond (upperStr kv.1))).getLast?.map
        (fun kv => some (Val.vNum (.num ((secListOf (val4 (upperStr kv.1) kv.2)).length : ℚ))))).getD
        none :=
  objGet_foldl_lastWrite _ (fun k _ => secCond (upperStr k))
    (fun k v => .vNum (.num ((secListOf (val4 (upperStr k) v)).length : ℚ)))
    (fun acc k v hk => objGet_stepKey_secCount acc k v hk) row [] h

/-! ## Claim C1 -/

/-- Claim C1: a raw record whose non-empty capital column fails currency
parsing is claimed to get `_raw_capital = 0`, never NaN. Evaluating the
normalizer at the failing input `{"CAPITAL SOCIAL": "abc"}` shows the code
stores NaN instead: `parseFloat('')` is NaN and `typeof NaN === 'number'`
selects the no-default branch of `typeof val === 'number' ? val : 0`. -/
theorem C1_unparseable_capital_is_nan :
    objGet (cleanRow [("CAPITAL SOCIAL", Val.vStr "abc")]) "_raw_capital" =
      some (Val.vNum JSNum.nan) := by decide

/-! ## Claim C2 -/

/-- Claim C2 (counterexample): with two keys matching the primary-activity
category, the claim says the first match (`"111"`) populates
`_cnae_principal`; the normalizer actually keeps the last match (`"222"`). -/
theorem C2_first_match_cex :
    objGet (cleanRow [("CNAE PRINCIPAL", Val.vStr "111"), ("ATIVIDADE PRINCIPAL", Val.vStr "222")])
        "_cnae_principal" ≠ some (Val.vStr "111") ∧
    objGet (cleanRow [("CNAE PRINCIPAL", Val.vStr "111"), ("ATIVIDADE PRINCIPAL", Val.vStr "222")])
        "_cnae_principal" = some (Val.vStr "222") := by decide

/-- Claim C2 (amended): for every raw record (whose column names avoid the
reserved `_` prefix), every derived-field category is populated from the
LAST matching key in key order — the per-key loop overwrites on each match.
For the singular fields: primary activity code and region take the last
matching key's (transformed) value; the year takes the last date-matching
key whose value parses. For the list categories, the last matching key's
value populates the list, as claimed. -/
theorem C2_last_match_wins (row : Row) (h : ∀ kv ∈ row, startsUnderscore kv.1 = false) :
    objGet (cleanRow row) "_cnae_principal" =
      ((row.filter (fun kv => priCond (upperStr kv.1))).getLast?.map
        (fun kv => some (val4 (upperStr kv.1) kv.2))).getD none ∧
    objGet (cleanRow row) "_uf" =
      ((row.filter (fun kv => ufCond (upperStr kv.1))).getLast?.map
        (fun kv => some (Val.vStr (trimStr (upperStr (jsString (val4 (upperStr kv.1) kv.2))))))).getD
        none ∧
    objGet (cleanRow row) "_year" =
      ((row.filter (fun kv =>
          dateCond (upperStr kv.1) (val1 (upperStr kv.1) kv.2) &&
            (jsDateYear (jsString kv.2)).isSome)).getLast?.map
        (fun kv => some (Val.vNum (.num (((jsDateYear (jsString kv.2)).getD 0 : ℤ) : ℚ))))).getD
        none ∧
    objGet (cleanRow row) "_socios_list" =
      ((row.filter (fun kv => socCond (upperStr kv.1))).getLast?.map
        (fun kv => some (Val.vList (socListOf (val3 (upperStr kv.1) kv.2))))).getD none ∧
    objGet (cleanRow row) "_cnae_sec_list" =
      ((row.filter (fun kv => secCond (upperStr kv.1))).getLast?.map
        (fun kv => some (Val.vList (secListOf (val4 (upperStr kv.1) kv.2))))).getD none :=
  ⟨cleanRow_principal row h, cleanRow_uf row h, cleanRow_year row h,
    cleanRow_sociosList row h, cleanRow_secList row h⟩

/-- Witness for claim C2's amended theorem at a concrete record. -/
theorem C2_last_match_wins_witness :
    objGet (cleanRow c2row) "_cnae_principal" =
      ((c2row.filter (fun kv => priCond (upperStr kv.1))).getLast?.map
        (fun kv => some (val4 (upperStr kv.1) kv.2))).getD none ∧
    objGet (cleanRow c2row) "_uf" =
      ((c2row.filter (fun kv => ufCond (upperStr kv.1))).getLast?.map
        (fun kv => some (Val.vStr (trimStr (upperStr (jsString (val4 (upperStr kv.1) kv.2))))))).getD
        none ∧
    objGet (cleanRow c2row) "_year" =
      ((c2row.filter (fun kv =>
          dateCond (upperStr kv.1) (val1 (upperStr kv.1) kv.2) &&
            (jsDateYear (jsString kv.2)).isSome)).getLast?.map
        (fun kv => some (Val.vNum (.num (((jsDateYear (jsString kv.2)).getD 0 : ℤ) : ℚ))))).getD
        none ∧
    objGet (cleanRow c2row) "_socios_list" =
      ((c2row.filter (fun kv => socCond (upperStr kv.1))).getLast?.map
        (fun kv => some (Val.vList (socListOf (val3 (upperStr kv.1) kv.2))))).getD none ∧
    objGet (cleanRow c2row) "_cnae_sec_list" =
      ((c2row.filter (fun kv => secCond (upperStr kv.1))).getLast?.map
        (fun kv => some (Val.vList (secListOf (val4 (upperStr kv.1) kv.2))))).getD none :=
  C2_last_match_wins c2row (by decide)

/-! ## Claim C3 -/

/-- Claim C3 (counterexample): the record `{"ESTADO": "rio de janeiro"}`
gets `_uf = "RIO DE JANEIRO"`, which is not two uppercase letters — the
normalizer uppercases and trims but never checks shape or length. -/
theorem C3_two_upper_cex :
    objGet (cleanRow [("ESTADO", Val.vStr "rio de janeiro")]) "_uf" =
      some (Val.vStr "RIO DE JANEIRO") ∧
    isTwoUpper "RIO DE JANEIRO" = false := by decide

/-- Claim C3 (amended): when `_uf` is present on a normalized record (of a
raw record without reserved-prefix columns), it equals
`String(value).toUpperCase().trim()` of a matching region column's value —
an arbitrary string, with no two-uppercase-letter guarantee. -/
theorem C3_uf_shape (row : Row) (h : ∀ kv ∈ row, startsUnderscore kv.1 = false)
    (v : Val) (hv : objGet (cleanRow row) "_uf" = some v) :
    ∃ kv ∈ row, ufCond (upperStr kv.1) = true ∧
      v = Val.vStr (trimStr (upperStr (jsString (val4 (upperStr kv.1) kv.2)))) := by
  rw [cleanRow_uf row h] at hv
  cases hft : (row.filter (fun kv => ufCond (upperStr kv.1))).getLast? with
  | none => rw [hft] at hv; simp at hv
  | some kv =>
    rw [hft] at hv
    simp at hv
    have hmem : kv ∈ row.filter (fun kv => ufCond (upperStr kv.1)) :=
      List.mem_of_getLast?_eq_some hft
    rw [List.mem_filter] at hmem
    exact ⟨kv, hmem.1, hmem.2, hv.symm⟩

/-- Witness for claim C3's amended theorem at a concrete record. -/
theorem C3_uf_shape_witness :
    ∃ kv ∈ ([("ESTADO", Val.vStr "rio de janeiro")] : Row), ufCond (upperStr kv.1) = true ∧
      Val.vStr "RIO DE JANEIRO" =
        Val.vStr (trimStr (upperStr (jsString (val4 (upperStr kv.1) kv.2)))) :=
  C3_uf_shape [("ESTADO", Val.vStr "rio de janeiro")] (by decide)
    (Val.vStr "RIO DE JANEIRO") (by decide)

/-! ## Claim C4 -/

/-- Claim C4 (counterexample): a value reducing to 15 digits is claimed to
pass through unchanged; `formatCNPJ` actually formats its first 14 digits
and appends the rest. -/
theorem C4_passthrough_cex :
    formatCNPJ "123456789012345" = "12.345.678/9012-345" ∧
    formatCNPJ "123456789012345" ≠ "123456789012345" := by decide

/-- Claim C4 (amended): for a non-empty value, the digit string (zero-padded
on the left when shorter than 14) is masked as `NN.NNN.NNN/NNNN-NN` with any
digits beyond the 14th appended after the mask — so values with at most 14
digits are fully masked as claimed, but longer ones are reformatted rather
than passed through. Empty values are returned unchanged, and no error is
raised in any case. -/
theorem C4_formatCNPJ_amended (value : String) :
    (value = "" → formatCNPJ value = value) ∧
    (value ≠ "" →
      formatCNPJ value =
        String.mk
          ((List.replicate (14 - (value.data.filter Char.isDigit).length) '0' ++
              value.data.filter Char.isDigit).take 2 ++
            '.' :: ((List.replicate (14 - (value.data.filter Char.isDigit).length) '0' ++
              value.data.filter Char.isDigit).drop 2).take 3 ++
            '.' :: ((List.replicate (14 - (value.data.filter Char.isDigit).length) '0' ++
              value.data.filter Char.isDigit).drop 5).take 3 ++
            '/' :: ((List.replicate (14 - (value.data.filter Char.isDigit).length) '0' ++
              value.data.filter Char.isDigit).drop 8).take 4 ++
            '-' :: (List.replicate (14 - (value.data.filter Char.isDigit).length) '0' ++
              value.data.filter Char.isDigit).drop 12)) := by
  constructor
  · intro h
    simp [formatCNPJ, h]
  · intro h
    have hlen : 14 ≤ (List.replicate (14 - (value.data.filter Char.isDigit).length) '0' ++
        value.data.filter Char.isDigit).length := by
      rw [List.length_append, List.length_replicate]
      omega
    simp only [formatCNPJ, if_neg h, if_pos hlen]

/-- Witness for claim C4's amended theorem at the 15-digit counterexample
input. -/
theorem C4_formatCNPJ_amended_witness :
    formatCNPJ "123456789012345" =
      String.mk
        ((List.replicate (14 - ("123456789012345".data.filter Char.isDigit).length) '0' ++
            "123456789012345".data.filter Char.isDigit).take 2 ++
          '.' :: ((List.replicate (14 - ("123456789012345".data.filter Char.isDigit).length) '0' ++
            "123456789012345".data.filter Char.isDigit).drop 2).take 3 ++
          '.' :: ((List.replicate (14 - ("123456789012345".data.filter Char.isDigit).length) '0' ++
            "123456789012345".data.filter Char.isDigit).drop 5).take 3 ++
          '/' :: ((List.replicate (14 - ("123456789012345".data.filter Char.isDigit).length) '0' ++
            "123456789012345".data.filter Char.isDigit).drop 8).take 4 ++
          '-' :: (List.replicate (14 - ("123456789012345".data.filter Char.isDigit).length) '0' ++
            "123456789012345".data.filter Char.isDigit).drop 12) :=
  (C4_formatCNPJ_amended "123456789012345").2 (by decide)

/-! ## Claim C6 -/

/-- Claim C6: on every normalized record (of a raw record without
reserved-prefix columns) the partner-count field equals the length of the
partner list, and the secondary-activity-count field equals the length of
the secondary-activity list; each count is present exactly when its list is. -/
theorem C6_counts_match_lengths (row : Row)
    (h : ∀ kv ∈ row, startsUnderscore kv.1 = false) :
    ((objGet (cleanRow row) "_socios_list" = none ∧
        objGet (cleanRow row) "_socios_count" = none) ∨
      ∃ l, objGet (cleanRow row) "_socios_list" = some (Val.vList l) ∧
        objGet (cleanRow row) "_socios_count" = some (Val.vNum (.num (l.length : ℚ)))) ∧
    ((objGet (cleanRow row) "_cnae_sec_list" = none ∧
        objGet (cleanRow row) "_cnae_sec_count" = none) ∨
      ∃ l, objGet (cleanRow row) "_cnae_sec_list" = some (Val.vList l) ∧
        objGet (cleanRow row) "_cnae_sec_count" = some (Val.vNum (.num (l.length : ℚ)))) := by
  constructor
  · rw [cleanRow_sociosList row h, cleanRow_sociosCount row h]
    cases hft : (row.filter (fun kv => socCond (upperStr kv.1))).getLast? with
    | none => left; simp [hft]
    | some kv =>
      right
      exact ⟨socListOf (val3 (upperStr kv.1) kv.2), by simp [hft], by simp [hft]⟩
  · rw [cleanRow_secList row h, cleanRow_secCount row h]
    cases hft : (row.filter (fun kv => secCond (upperStr kv.1))).getLast? with
    | none => left; simp [hft]
    | some kv =>
      right
      exact ⟨secListOf (val4 (upperStr kv.1) kv.2), by simp [hft], by simp [hft]⟩

/-- Witness for claim C6 at a concrete record with a partner column and a
secondary-activity column. -/
theorem C6_counts_match_lengths_witness :
    ((objGet (cleanRow [("SOCIOS", Val.vStr "Ana; Beto;"),
          ("CNAE SECUNDARIO", Val.vStr "6611-8/01; 6612-6/01")]) "_socios_list" = none ∧
        objGet (cleanRow [("SOCIOS", Val.vStr "Ana; Beto;"),
          ("CNAE SECUNDARIO", Val.vStr "6611-8/01; 6612-6/01")]) "_socios_count" = none) ∨
      ∃ l, objGet (cleanRow [("SOCIOS", Val.vStr "Ana; Beto;"),
          ("CNAE SECUNDARIO", Val.vStr "6611-8/01; 6612-6/01")]) "_socios_list" =
          some (Val.vList l) ∧
        objGet (cleanRow [("SOCIOS", Val.vStr "Ana; Beto;"),
          ("CNAE SECUNDARIO", Val.vStr "6611-8/01; 6612-6/01")]) "_socios_count" =
          some (Val.vNum (.num (l.length : ℚ)))) ∧
    ((objGet (cleanRow [("SOCIOS", Val.vStr "Ana; Beto;"),
          ("CNAE SECUNDARIO", Val.vStr "6611-8/01; 6612-6/01")]) "_cnae_sec_list" = none ∧
        objGet (cleanRow [("SOCIOS", Val.vStr "Ana; Beto;"),
          ("CNAE SECUNDARIO", Val.vStr "6611-8/01; 6612-6/01")]) "_cnae_sec_count" = none) ∨
      ∃ l, objGet (cleanRow [("SOCIOS", Val.vStr "Ana; Beto;"),
          ("CNAE SECUNDARIO", Val.vStr "6611-8/01; 6612-6/01")]) "_cnae_sec_list" =
          some (Val.vList l) ∧
        objGet (cleanRow [("SOCIOS", Val.vStr "Ana; Beto;"),
          ("CNAE SECUNDARIO", Val.vStr "6611-8/01; 6612-6/01")]) "_cnae_sec_count" =
          some (Val.vNum (.num (l.length : ℚ)))) :=
  C6_counts_match_lengths
    [("SOCIOS", Val.vStr "Ana; Beto;"), ("CNAE SECUNDARIO", Val.vStr "6611-8/01; 6612-6/01")]
    (by decide)

/-! ## Claim C9 -/

/-- Claim C9: the filter engine with all three selection sets empty is the
identity on the dataset — each dimension's filter is only applied when its
selection set is non-empty. -/
theorem C9_empty_filters_identity (data : List Row) :
    filteredData data [] [] [] = data := rfl

/-! ## Claim C8 -/

theorem loadLoop_eq_append (sources : List FetchResult) :
    ∀ acc : List Row, loadLoop sources acc = acc ++ sources.flatMap sourceRows := by
  induction sources with
  | nil => intro acc; simp [loadLoop]
  | cons s rest ih =>
    intro acc
    cases s with
    | netError => simp [loadLoop, sourceRows, ih]
    | resp ok body =>
      cases ok with
      | false => simp [loadLoop, sourceRows, ih]
      | true =>
        cases hhtml : isHTMLBody body with
        | true => simp [loadLoop, sourceRows, hhtml, ih]
        | false => simp [loadLoop, sourceRows, hhtml, ih]

/-- Claim C8: the load throws its terminal error exactly when the rows
accumulated over all sources number zero; a network failure, a non-2xx
response or an HTML body contributes no rows (the source is skipped); and a
successful load returns the concatenation of the per-source rows, which is
then non-empty. -/
theorem C8_load_fails_iff_zero_rows (sources : List FetchResult) :
    (fetchSheetData sources = .error loadErrorMsg ↔ (sources.flatMap sourceRows).length = 0) ∧
    (∀ rows, fetchSheetData sources = .ok rows →
      rows = sources.flatMap sourceRows ∧ rows ≠ []) ∧
    (∀ s, skippedSource s = true → sourceRows s = []) := by
  have hl := loadLoop_eq_append sources []
  rw [List.nil_append] at hl
  refine ⟨?_, ?_, ?_⟩
  · unfold fetchSheetData
    rw [hl]
    by_cases hz : (sources.flatMap sourceRows).length = 0
    · simp [hz]
    · simp [hz]
  · intro rows hr
    unfold fetchSheetData at hr
    rw [hl] at hr
    by_cases hz : (sources.flatMap sourceRows).length = 0
    · rw [if_pos hz] at hr
      cases hr
    · rw [if_neg hz] at hr
      cases hr
      refine ⟨rfl, ?_⟩
      intro he
      exact hz (by rw [he]; rfl)
  · intro s hs
    cases s with
    | netError => rfl
    | resp ok body =>
      cases ok with
      | false => rfl
      | true =>
        have hb : isHTMLBody body = true := by simpa [skippedSource] using hs
        simp [sourceRows, hb]

/-- Witness for claim C8: the load over `c8sources` succeeds with exactly
the one row of the one good source. -/
theorem C8_load_fails_iff_zero_rows_witness :
    ([[("NOME", Val.vStr "Acme")]] : List Row) = c8sources.flatMap sourceRows ∧
    ([[("NOME", Val.vStr "Acme")]] : List Row) ≠ [] :=
  (C8_load_fails_iff_zero_rows c8sources).2.1 [[("NOME", Val.vStr "Acme")]] (by rfl)

/-! ## Claim C7 -/

theorem filter_orderedInsert_eqKey {α : Type*} (f : α → ℚ) (q : ℚ) (a : α) (l : List α)
    (ha : f a = q) :
    (List.orderedInsert (byKeyDesc f) a l).filter (fun x => decide (f x = q)) =
      a :: l.filter (fun x => decide (f x = q)) := by
  induction l with
  | nil => simp [List.orderedInsert, ha]
  | cons b t ih =>
    rw [List.orderedInsert]
    by_cases hr : byKeyDesc f a b
    · rw [if_pos hr]
      simp [ha]
    · rw [if_neg hr]
      have hb : ¬ (f b = q) := by
        intro hbq
        exact hr (le_of_eq (hbq.trans ha.symm))
      rw [List.filter_cons, List.filter_cons]
      simp [hb, ih]

theorem filter_orderedInsert_neKey {α : Type*} (f : α → ℚ) (q : ℚ) (a : α) (l : List α)
    (ha : ¬ (f a = q)) :
    (List.orderedInsert (byKeyDesc f) a l).filter (fun x => decide (f x = q)) =
      l.filter (fun x => decide (f x = q)) := by
  induction l with
  | nil => simp [List.orderedInsert, ha]
  | cons b t ih =>
    rw [List.orderedInsert]
    by_cases hr : byKeyDesc f a b
    · rw [if_pos hr]
      simp [ha]
    · rw [if_neg hr]
      rw [List.filter_cons, List.filter_cons]
      simp [ih]

/-- The stable sort used by the aggregators leaves each equal-key
subsequence exactly as it occurs in the input. -/
theorem filter_insertionSort_eqKey {α : Type*} (f : α → ℚ) (q : ℚ) (l : List α) :
    (List.insertionSort (byKeyDesc f) l).filter (fun x => decide (f x = q)) =
      l.filter (fun x => decide (f x = q)) := by
  induction l with
  | nil => rfl
  | cons a t ih =>
    rw [List.insertionSort]
    by_cases ha : f a = q
    · rw [filter_orderedInsert_eqKey f q a _ ha, ih, List.filter_cons]
      simp [ha]
    · rw [filter_orderedInsert_neKey f q a _ ha, ih, List.filter_cons]
      simp [ha]

/-- Claim C7: `getTopCapital` returns `min 10 (dataset size)` points sorted
descending by capital, and the sort is stable — for every capital value, the
source records carrying it appear as a sublist (hence in the original
relative order) of the records of the dataset carrying that value. -/
theorem C7_topCapital_sorted_stable (data : List Row) :
    (getTopCapital data).length = min 10 data.length ∧
    ((getTopCapital data).map ChartPoint.value).Sorted (· ≥ ·) ∧
    ∀ q : ℚ, List.Sublist
      (((getTopCapital data).map ChartPoint.fullData).filter (fun r => decide (rawCapQ r = q)))
      (data.filter (fun r => decide (rawCapQ r = q))) := by
  refine ⟨?_, ?_, ?_⟩
  · simp [getTopCapital, List.length_insertionSort]
  · have hs : (List.insertionSort (byKeyDesc rawCapQ) data).Sorted (byKeyDesc rawCapQ) :=
      List.sorted_insertionSort _ _
    rw [getTopCapital, List.map_map]
    exact List.pairwise_map.mpr (List.Pairwise.sublist (List.take_sublist _ _) hs)
  · intro q
    rw [getTopCapital, List.map_map]
    have h1 : (ChartPoint.fullData ∘ fun row =>
        ({ name := topName row, value := rawCapQ row, fullData := row } : ChartPoint)) =
        (fun row : Row => row) := rfl
    rw [h1, List.map_id']
    have h2 := filter_insertionSort_eqKey rawCapQ q data
    exact h2 ▸ List.Sublist.filter _ (List.take_sublist _ _)

/-! ## Claim C5 -/

/-- Claim C5 (counterexample): the claim says every aggregator attaches the
very record of the dataset; `getTopCNAESecundary` attaches the spread copy
`{...row, _financial_count}`, which has an extra field and is therefore not
the dataset's record. -/
theorem C5_shared_record_cex :
    (getTopCNAESecundary [[("NOME", Val.vStr "Empresa X")]]).map ChartPoint.fullData =
      [[("NOME", Val.vStr "Empresa X"), ("_financial_count", Val.vNum (.num 0))]] ∧
    (getTopCNAESecundary [[("NOME", Val.vStr "Empresa X")]]).map ChartPoint.fullData ≠
      [[("NOME", Val.vStr "Empresa X")]] := by decide

/-- Claim C5 (amended): `getTopCapital` attaches the dataset's own record
unchanged; `getTopCNAESecundary` instead attaches the dataset record
extended with the derived `_financial_count` field (original fields
unchanged, one field added). -/
theorem C5_fullData_provenance (data : List Row) :
    (∀ p ∈ getTopCapital data, p.fullData ∈ data) ∧
    (∀ p ∈ getTopCNAESecundary data, ∃ r ∈ data, p.fullData = augmentFin r) := by
  constructor
  · intro p hp
    simp only [getTopCapital, List.mem_map] at hp
    obtain ⟨row, hrow, rfl⟩ := hp
    have h2 : row ∈ List.insertionSort (byKeyDesc rawCapQ) data :=
      (List.take_sublist _ _).subset hrow
    exact (List.perm_insertionSort _ data).mem_iff.mp h2
  · intro p hp
    simp only [getTopCNAESecundary, List.mem_map] at hp
    obtain ⟨row, hrow, rfl⟩ := hp
    have h2 : row ∈ List.insertionSort (byKeyDesc finOf) (data.map augmentFin) :=
      (List.take_sublist _ _).subset hrow
    have h3 : row ∈ data.map augmentFin := (List.perm_insertionSort _ _).mem_iff.mp h2
    simp only [List.mem_map] at h3
    obtain ⟨r, hr, rfl⟩ := h3
    exact ⟨r, hr, rfl⟩

/-- Witness for claim C5's amended theorem: the single chart point of
`getTopCNAESecundary c5data` carries the augmented copy of the one record. -/
theorem C5_fullData_provenance_witness :
    ∃ r ∈ c5data,
      (ChartPoint.mk "Empresa X..." 0
        [("NOME", Val.vStr "Empresa X"), ("_financial_count", Val.vNum (.num 0))]).fullData =
        augmentFin r :=
  (C5_fullData_provenance c5data).2
    (ChartPoint.mk "Empresa X..." 0
      [("NOME", Val.vStr "Empresa X"), ("_financial_count", Val.vNum (.num 0))])
    (by decide)

/-! ## Integer rendering round-trips through `parseIntJS` -/

theorem toDigitsCore_shift (fuel : ℕ) :
    ∀ (n : ℕ) (ds : List Char),
      Nat.toDigitsCore 10 fuel n ds = Nat.toDigitsCore 10 fuel n [] ++ ds := by
  induction fuel with
  | zero => intro n ds; rfl
  | succ f ih =>
    intro n ds
    rw [Nat.toDigitsCore, Nat.toDigitsCore]
    by_cases h : n / 10 = 0
    · simp [h]
    · rw [if_neg h, if_neg h, ih (n / 10) (Nat.digitChar (n % 10) :: ds),
        ih (n / 10) [Nat.digitChar (n % 10)], List.append_assoc]
      rfl

theorem digitVal_digitChar {m : ℕ} (h : m < 10) : digitVal (Nat.digitChar m) = m := by
  interval_cases m <;> decide

theorem digitChar_isDigit {m : ℕ} (h : m < 10) : (Nat.digitChar m).isDigit = true := by
  interval_cases m <;> decide

theorem toDigitsCore_all_isDigit :
    ∀ (n fuel : ℕ), n < fuel → ∀ c ∈ Nat.toDigitsCore 10 fuel n [], c.isDigit = true := by
  intro n
  induction n using Nat.strong_induction_on with
  | _ n ih =>
    intro fuel hfuel c hc
    cases fuel with
    | zero => cases hc
    | succ f =>
      rw [Nat.toDigitsCore] at hc
      by_cases h : n / 10 = 0
      · rw [if_pos h] at hc
        have hcd := List.mem_singleton.mp hc
        subst hcd
        exact digitChar_isDigit (Nat.mod_lt _ (by norm_num))
      · rw [if_neg h, toDigitsCore_shift] at hc
        rcases List.mem_append.mp hc with hc2 | hc2
        · have hlt : n / 10 < n := Nat.div_lt_self (Nat.pos_of_ne_zero
            (fun hn => h (by rw [hn]))) (by norm_num)
          exact ih (n / 10) hlt f (by omega) c hc2
        · have hcd := List.mem_singleton.mp hc2
          subst hcd
          exact digitChar_isDigit (Nat.mod_lt _ (by norm_num))

theorem digitsVal_toDigitsCore :
    ∀ (n fuel : ℕ), n < fuel → digitsVal (Nat.toDigitsCore 10 fuel n []) = n := by
  intro n
  induction n using Nat.strong_induction_on with
  | _ n ih =>
    intro fuel hfuel
    cases fuel with
    | zero => omega
    | succ f =>
      rw [Nat.toDigitsCore]
      by_cases h : n / 10 = 0
      · rw [if_pos h]
        have hmod : n % 10 = n := by omega
        show digitsVal [Nat.digitChar (n % 10)] = n
        rw [digitsVal, List.foldl_cons, List.foldl_nil, Nat.zero_mul, Nat.zero_add,
          digitVal_digitChar (Nat.mod_lt _ (by norm_num)), hmod]
      · rw [if_neg h, toDigitsCore_shift]
        have hlt : n / 10 < n := Nat.div_lt_self (Nat.pos_of_ne_zero
          (fun hn => h (by rw [hn]))) (by norm_num)
        rw [digitsVal, List.foldl_append]
        have hrec : List.foldl (fun a c => a * 10 + digitVal c) 0
            (Nat.toDigitsCore 10 f (n / 10) []) = n / 10 := ih (n / 10) hlt f (by omega)
        rw [hrec, List.foldl_cons, List.foldl_nil,
          digitVal_digitChar (Nat.mod_lt _ (by norm_num))]
        omega

theorem takeWhile_eq_self_of_all {α : Type*} (p : α → Bool) :
    ∀ l : List α, (∀ c ∈ l, p c = true) → l.takeWhile p = l := by
  intro l
  induction l with
  | nil => intro _; rfl
  | cons a t ih =>
    intro h
    rw [List.takeWhile_cons]
    simp [h a (List.mem_cons_self _ _), ih (fun c hc => h c (List.mem_cons_of_mem _ hc))]

theorem natRepr_data (n : ℕ) : (Nat.repr n).data = Nat.toDigitsCore 10 (n + 1) n [] := rfl

theorem digitsVal_natRepr (n : ℕ) : digitsVal (Nat.repr n).data = n := by
  rw [natRepr_data]
  exact digitsVal_toDigitsCore n (n + 1) (Nat.lt_succ_self n)

theorem natRepr_all_isDigit (n : ℕ) : ∀ c ∈ (Nat.repr n).data, c.isDigit = true := by
  rw [natRepr_data]
  exact toDigitsCore_all_isDigit n (n + 1) (Nat.lt_succ_self n)

/-- JS `parseInt` recovers every integer from its canonical rendering. -/
theorem parseIntJS_toString (z : ℤ) : parseIntJS (toString z) = z := by
  cases z with
  | ofNat n =>
    show parseIntJS (Nat.repr n) = Int.ofNat n
    rw [parseIntJS]
    cases hd : (Nat.repr n).data with
    | nil =>
      have h0 := digitsVal_natRepr n
      rw [hd] at h0
      simp [digitsVal] at h0
      simp only [parseIntChars]
      subst h0
      rfl
    | cons c rest =>
      have hall : ∀ x ∈ c :: rest, x.isDigit = true := by
        have hh := natRepr_all_isDigit n
        rw [hd] at hh
        exact hh
      have hc : ¬ (c = '-') := by
        intro hcc
        have hdig := hall c (List.mem_cons_self _ _)
        rw [hcc] at hdig
        cases hdig
      have hval := digitsVal_natRepr n
      rw [hd] at hval
      simp only [parseIntChars]
      rw [if_neg hc, takeWhile_eq_self_of_all _ _ hall, hval]
      rfl
  | negSucc m =>
    show parseIntJS ("-" ++ Nat.repr (m + 1)) = Int.negSucc m
    have hdata : ("-" ++ Nat.repr (m + 1)).data = '-' :: (Nat.repr (m + 1)).data := rfl
    rw [parseIntJS, hdata]
    simp only [parseIntChars]
    rw [if_pos trivial, takeWhile_eq_self_of_all _ _ (natRepr_all_isDigit (m + 1)),
      digitsVal_natRepr, Int.negSucc_eq]
    push_cast
    ring

theorem toString_int_inj {a b : ℤ} (h : toString a = toString b) : a = b := by
  have ha := parseIntJS_toString a
  rw [h, parseIntJS_toString b] at ha
  exact ha.symm

/-- The trend-map key of an integral year. -/
theorem jsNumToString_intCast (z : ℤ) : jsNumToString ((z : ℤ) : ℚ) = toString z := by
  rw [jsNumToString, if_pos (Rat.den_intCast z), Rat.num_intCast]

/-! ## Claim C10 -/

theorem qGet_bump (m : List (String × ℚ)) (k : String) (c : ℚ) (s : String) :
    qGet (bump m k c) s =
      if s = k then some ((qGet m k).getD 0 + c) else qGet m s := by
  induction m with
  | nil =>
    by_cases h : s = k
    · subst h
      simp [bump, qGet]
    · have h2 : ¬ (k = s) := fun hh => h hh.symm
      simp [bump, qGet, h, h2]
  | cons e t ih =>
    cases e with
    | mk a b =>
      by_cases hak : a = k
      · subst hak
        by_cases hs : s = a
        · subst hs
          simp [bump, qGet]
        · have hs2 : ¬ (a = s) := fun hh => hs hh.symm
          simp [bump, qGet, hs, hs2]
      · by_cases hs : s = k
        · subst hs
          have ha2 : ¬ (a = s) := hak
          simp [bump, qGet, hak, ha2, ih]
        · by_cases has : a = s
          · subst has
            simp [bump, qGet, hak, hs, ih]
          · simp [bump, qGet, hak, hs, has, ih]

theorem qGet_isSome_iff_mem (m : List (String × ℚ)) (s : String) :
    (qGet m s).isSome = true ↔ s ∈ m.map Prod.fst := by
  induction m with
  | nil => simp [qGet]
  | cons e t ih =>
    cases e with
    | mk a b =>
      by_cases h : a = s
      · subst h
        simp [qGet]
      · have h2 : ¬ (s = a) := fun hh => h hh.symm
        simp [qGet, h, h2, ih]

theorem bump_keys (m : List (String × ℚ)) (k : String) (c : ℚ) :
    (bump m k c).map Prod.fst =
      if (qGet m k).isSome then m.map Prod.fst else m.map Prod.fst ++ [k] := by
  induction m with
  | nil => simp [bump, qGet]
  | cons e t ih =>
    cases e with
    | mk a b =>
      by_cases h : a = k
      · subst h
        simp [bump, qGet]
      · simp only [bump, if_neg h, List.map_cons, qGet, ih]
        by_cases h2 : (qGet t k).isSome <;> simp [h, h2]

theorem bump_keys_nodup {m : List (String × ℚ)} (h : (m.map Prod.fst).Nodup)
    (k : String) (c : ℚ) : ((bump m k c).map Prod.fst).Nodup := by
  rw [bump_keys]
  by_cases h2 : (qGet m k).isSome
  · simp [h2, h]
  · rw [if_neg h2, List.nodup_append]
    refine ⟨h, List.nodup_singleton k, ?_⟩
    intro x hx hk
    rw [List.mem_singleton] at hk
    subst hk
    exact h2 ((qGet_isSome_iff_mem m x).mpr hx)

theorem qGet_of_mem_nodup {m : List (String × ℚ)} (hnd : (m.map Prod.fst).Nodup)
    {k : String} {v : ℚ} (he : (k, v) ∈ m) : qGet m k = some v := by
  induction m with
  | nil => cases he
  | cons a t ih =>
    cases a with
    | mk a1 a2 =>
      simp only [List.map_cons, List.nodup_cons] at hnd
      rcases List.mem_cons.mp he with heq | he2
      · cases heq
        simp [qGet]
      · have hne : ¬ (a1 = k) := by
          intro hh
          subst hh
          apply hnd.1
          simpa using List.mem_map_of_mem Prod.fst he2
        simp only [qGet, if_neg hne]
        exact ih hnd.2 he2

theorem trendFold_keys_nodup (cy : ℤ) (data : List Row) :
    ∀ m : List (String × ℚ), (m.map Prod.fst).Nodup →
      ((data.foldl (trendStep cy) m).map Prod.fst).Nodup := by
  induction data with
  | nil => intro m hm; exact hm
  | cons r t ih =>
    intro m hm
    rw [List.foldl_cons]
    cases hti : trendIncluded cy r with
    | none =>
      have hst : trendStep cy m r = m := by simp [trendStep, hti]
      rw [hst]
      exact ih m hm
    | some yc0 =>
      have hst : trendStep cy m r = bump m (jsNumToString yc0.1) yc0.2 := by
        simp [trendStep, hti]
      rw [hst]
      exact ih _ (bump_keys_nodup hm _ _)

theorem trendFold_mem_keys (cy : ℤ) (s : String) (data : List Row) :
    ∀ m : List (String × ℚ),
      (s ∈ (data.foldl (trendStep cy) m).map Prod.fst ↔
        (s ∈ m.map Prod.fst ∨
          ∃ r ∈ data, ∃ yc, trendIncluded cy r = some yc ∧ jsNumToString yc.1 = s)) := by
  induction data with
  | nil => intro m; simp
  | cons r t ih =>
    intro m
    rw [List.foldl_cons]
    cases hti : trendIncluded cy r with
    | none =>
      have hst : trendStep cy m r = m := by simp [trendStep, hti]
      rw [hst, ih]
      constructor
      · rintro (hm | ⟨r2, hr2, yc, h1, h2⟩)
        · exact Or.inl hm
        · exact Or.inr ⟨r2, List.mem_cons_of_mem _ hr2, yc, h1, h2⟩
      · rintro (hm | ⟨r2, hr2, yc, h1, h2⟩)
        · exact Or.inl hm
        · rcases List.mem_cons.mp hr2 with rfl | hr2
          · rw [hti] at h1
            cases h1
          · exact Or.inr ⟨r2, hr2, yc, h1, h2⟩
    | some yc0 =>
      have hst : trendStep cy m r = bump m (jsNumToString yc0.1) yc0.2 := by
        simp [trendStep, hti]
      have hbk : s ∈ (bump m (jsNumToString yc0.1) yc0.2).map Prod.fst ↔
          (s = jsNumToString yc0.1 ∨ s ∈ m.map Prod.fst) := by
        rw [← qGet_isSome_iff_mem, qGet_bump, ← qGet_isSome_iff_mem]
        by_cases hs : s = jsNumToString yc0.1 <;> simp [hs]
      rw [hst, ih, hbk]
      constructor
      · rintro ((rfl | hm) | ⟨r2, hr2, yc, h1, h2⟩)
        · exact Or.inr ⟨r, List.mem_cons_self _ _, yc0, hti, rfl⟩
        · exact Or.inl hm
        · exact Or.inr ⟨r2, List.mem_cons_of_mem _ hr2, yc, h1, h2⟩
      · rintro (hm | ⟨r2, hr2, yc, h1, h2⟩)
        · exact Or.inl (Or.inr hm)
        · rcases List.mem_cons.mp hr2 with rfl | hr2
          · rw [hti] at h1
            cases h1
            exact Or.inl (Or.inl h2.symm)
          · exact Or.inr ⟨r2, hr2, yc, h1, h2⟩

theorem trendFold_val (cy : ℤ) (s : String) (data : List Row) :
    ∀ m : List (String × ℚ),
      (qGet (data.foldl (trendStep cy) m) s).getD 0 =
        (qGet m s).getD 0 + (data.map (yearContrib cy s)).sum := by
  induction data with
  | nil => intro m; simp
  | cons r t ih =>
    intro m
    rw [List.foldl_cons, List.map_cons, List.sum_cons]
    cases hti : trendIncluded cy r with
    | none =>
      have hst : trendStep cy m r = m := by simp [trendStep, hti]
      have hyc : yearContrib cy s r = 0 := by simp [yearContrib, hti]
      rw [hst, ih, hyc, zero_add]
    | some yc0 =>
      have hst : trendStep cy m r = bump m (jsNumToString yc0.1) yc0.2 := by
        simp [trendStep, hti]
      rw [hst, ih]
      by_cases hs : s = jsNumToString yc0.1
      · have hyc : yearContrib cy s r = yc0.2 := by
          simp [yearContrib, hti, hs]
        rw [qGet_bump, if_pos hs, hyc]
        subst hs
        simp only [Option.getD_some]
        ring
      · have hyc : yearContrib cy s r = 0 := by
          have hne : ¬ (jsNumToString yc0.1 = s) := fun hh => hs hh.symm
          simp [yearContrib, hti, hne]
        rw [qGet_bump, if_neg hs, hyc, zero_add]

theorem trendIncluded_spec {cy : ℤ} {r : Row} {yc : ℚ × ℚ}
    (h : trendIncluded cy r = some yc) :
    objGet r "_year" = some (.vNum (.num yc.1)) ∧
    objGet r "_raw_capital" = some (.vNum (.num yc.2)) ∧
    yc.1 ≠ 0 ∧ yc.2 ≠ 0 ∧ (1900 : ℚ) < yc.1 ∧ yc.1 ≤ (cy : ℚ) := by
  unfold trendIncluded at h
  split at h
  next y c hY hC =>
    split_ifs at h with hcond
    cases h
    exact ⟨hY, hC, hcond.1, hcond.2.1, hcond.2.2.1, hcond.2.2.2⟩
  next => simp at h

/-- Claim C10: over a dataset whose `_year` fields are integral (the only
shape the normalizer produces), `getCapitalTrend` (1) never shows a year all
of whose records carry a falsy (zero or NaN) `_raw_capital`, (2) returns
entries sorted ascending by the numeric value of their year name, and
(3) gives every entry a value equal to the sum of `_raw_capital` over
exactly the included records (truthy year and capital, year in
`(1900, currentYear]`) whose year stringifies to the entry's name. -/
theorem C10_capital_trend (cy : ℤ) (data : List Row)
    (hInt : ∀ r ∈ data, yearIntegral r = true) :
    (∀ y : ℤ,
      (∀ r ∈ data, objGet r "_year" = some (Val.vNum (.num (y : ℚ))) →
        capitalTruthy r = false) →
      jsNumToString ((y : ℤ) : ℚ) ∉ (getCapitalTrend cy data).map NamedValue.name) ∧
    ((getCapitalTrend cy data).map (fun p => parseIntJS p.name)).Sorted (· ≤ ·) ∧
    (∀ p ∈ getCapitalTrend cy data,
      (∃ r ∈ data, ∃ yc, trendIncluded cy r = some yc ∧ jsNumToString yc.1 = p.name) ∧
      p.value = (data.map (yearContrib cy p.name)).sum) := by
  have hmemiff : ∀ p : NamedValue, p ∈ getCapitalTrend cy data ↔
      p ∈ (trendMapOf cy data).map (fun e => ({ name := e.1, value := e.2 } : NamedValue)) :=
    fun p => (List.perm_insertionSort _ _).mem_iff
  have hnodup : ((trendMapOf cy data).map Prod.fst).Nodup :=
    trendFold_keys_nodup cy data [] (by simp)
  refine ⟨?_, ?_, ?_⟩
  · intro y hY hmem
    rw [List.mem_map] at hmem
    obtain ⟨p, hp, hpname⟩ := hmem
    rw [hmemiff p, List.mem_map] at hp
    obtain ⟨e, he, rfl⟩ := hp
    have hkey : e.1 ∈ (trendMapOf cy data).map Prod.fst := List.mem_map_of_mem Prod.fst he
    rw [trendMapOf, trendFold_mem_keys cy e.1 data []] at hkey
    rcases hkey with hk0 | ⟨r, hr, yc, hti, hname⟩
    · simp at hk0
    · obtain ⟨hYear, hCap, _, hc2, _, _⟩ := trendIncluded_spec hti
      have hden : yc.1.den = 1 := by
        have hi := hInt r hr
        rw [yearIntegral, hYear] at hi
        simpa using hi
      have hq : ((yc.1.num : ℤ) : ℚ) = yc.1 := (Rat.den_eq_one_iff yc.1).mp hden
      have hpn : e.1 = jsNumToString ((y : ℤ) : ℚ) := hpname
      have hnames : toString yc.1.num = toString y := by
        have h1 : jsNumToString yc.1 = toString yc.1.num := by
          rw [jsNumToString, if_pos hden]
        rw [← h1, hname, hpn, jsNumToString_intCast]
      have hnum : yc.1.num = y := toString_int_inj hnames
      have hyq : yc.1 = ((y : ℤ) : ℚ) := by rw [← hq, hnum]
      have hfalse := hY r hr (by rw [hYear, hyq])
      rw [capitalTruthy, hCap] at hfalse
      simp [truthy] at hfalse
      exact hc2 hfalse
  · have hs : List.Sorted (byKeyAsc (fun p : NamedValue => parseIntJS p.name))
        (getCapitalTrend cy data) := by
      rw [getCapitalTrend]
      exact List.sorted_insertionSort _ _
    exact List.pairwise_map.mpr hs
  · intro p hp
    rw [hmemiff p, List.mem_map] at hp
    obtain ⟨e, he, rfl⟩ := hp
    constructor
    · have hkey : e.1 ∈ (trendMapOf cy data).map Prod.fst := List.mem_map_of_mem Prod.fst he
      rw [trendMapOf, trendFold_mem_keys cy e.1 data []] at hkey
      rcases hkey with hk0 | hex
      · simp at hk0
      · exact hex
    · have hq : qGet (trendMapOf cy data) e.1 = some e.2 := qGet_of_mem_nodup hnodup he
      have hv := trendFold_val cy e.1 data []
      rw [← trendMapOf] at hv
      rw [hq] at hv
      simpa [qGet] using hv

/-- Witness for claim C10: in `trendDemo` every 1999 record has zero
capital, so 1999 does not appear among the trend entry names. -/
theorem C10_capital_trend_witness :
    jsNumToString ((1999 : ℤ) : ℚ) ∉ (getCapitalTrend 2025 trendDemo).map NamedValue.name :=
  (C10_capital_trend 2025 trendDemo (by decide)).1 1999 (by decide)

end CNPJ

